import Mathlib

/-!
Shallow embedding of the transformation registry and pipeline executor of
the meshx submission (src/registry.py and src/pipeline.py).

Tables are pandas DataFrames: an ordered list of column labels (duplicates
are possible in pandas, e.g. after a rename collision) and an ordered list
of rows, each row a list of scalar cells positionally parallel to the
labels.  Scalar cells are strings, integers, booleans, or the missing
value (pandas NaN, as produced by CSV ingestion).  `astype(str)` applied
to such a column stringifies elementwise exactly as Python `str` does,
with the missing value rendering as "nan".

Fallible Python code (raise ValueError / KeyError) is embedded as
`Except Err`; each constructor of `Err` corresponds to one raise site.

A second, heap-passing embedding near the end models the Python object
semantics (references, `df.copy()`, in-place column assignment) for the
frame/no-mutation claim about `process`.
-/

namespace Meshx

/-- A scalar cell of a DataFrame: string, integer, boolean, or missing
(pandas NaN). -/
inductive Value where
  | vstr (s : String)
  | vint (n : Int)
  | vbool (b : Bool)
  | vnull
deriving DecidableEq, Repr

/-- Elementwise stringification as performed by `astype(str)` / Python
`str`: integers print in decimal, booleans as "True"/"False", missing
values (NaN) as "nan". -/
def Value.toText : Value → String
  | .vstr s => s
  | .vint n => toString n
  | .vbool b => if b then "True" else "False"
  | .vnull => "nan"

/-- Does the list start with the given pattern?  Helper for the substring
test below. -/
def startsWithL : List Char → List Char → Bool
  | _, [] => true
  | [], _ :: _ => false
  | a :: as, b :: bs => a == b && startsWithL as bs

/-- Does the list contain the pattern as a contiguous sublist? -/
def containsSubL : List Char → List Char → Bool
  | [], pat => pat.isEmpty
  | a :: as, pat => startsWithL (a :: as) pat || containsSubL as pat

/-- Uppercasing as performed by Python `str.upper` / pandas
`Series.str.upper` on ASCII text: every character is uppercased
individually (`Char.toUpper` uppercases the ASCII letters and leaves
everything else alone, which matches the Python behavior on ASCII data). -/
def strUpper (s : String) : String := ⟨s.data.map Char.toUpper⟩

/-- Substring containment, the semantics of `str.contains` for the
literal (metacharacter-free) patterns exercised here.  (pandas
`Series.str.contains` interprets the pattern as a regular expression; on
patterns without regex metacharacters this coincides with substring
containment.) -/
def strContains (s pat : String) : Bool := containsSubL s.toList pat.toList

/-- Elementwise `==` of a pandas column against a scalar: NaN compares
unequal to everything, values of distinct scalar types compare unequal,
values of the same type compare structurally. -/
def valueEq : Value → Value → Bool
  | .vnull, _ => false
  | _, .vnull => false
  | .vstr a, .vstr b => a == b
  | .vint a, .vint b => a == b
  | .vbool a, .vbool b => a == b
  | _, _ => false

/-- Elementwise `<` of pandas scalars: numbers numerically, strings
lexicographically, booleans with False < True; any comparison against NaN
is False; comparing values of incompatible types raises (None). -/
def valueLt : Value → Value → Option Bool
  | .vnull, _ => some false
  | _, .vnull => some false
  | .vint a, .vint b => some (decide (a < b))
  | .vstr a, .vstr b => some (decide (a < b))
  | .vbool a, .vbool b => some (!a && b)
  | _, _ => none

/-- Elementwise `<=`, same conventions as `valueLt`. -/
def valueLe : Value → Value → Option Bool
  | .vnull, _ => some false
  | _, .vnull => some false
  | .vint a, .vint b => some (decide (a ≤ b))
  | .vstr a, .vstr b => some (decide (a ≤ b))
  | .vbool a, .vbool b => some (!a || b)
  | _, _ => none

/-- A pandas DataFrame: ordered column labels and ordered rows.  Labels
may repeat (pandas allows duplicate column labels); each row is
positionally parallel to `cols`. -/
structure Table where
  cols : List String
  rows : List (List Value)
deriving DecidableEq, Repr

/-- Value-level `df.copy()`: a deep copy of an immutable value is
the value itself.  The object-level copy (fresh reference) is modelled in
the heap section below. -/
def Table.copy (t : Table) : Table := t

/-- First index at which the label occurs in a label list. -/
def colIdxL : List String → String → Option Nat
  | [], _ => none
  | a :: as, c => if a == c then some 0 else (colIdxL as c).map (· + 1)

/-- Index of the column labelled `c` (first occurrence), as used by
`df[c]` on a frame with unique labels; `none` when the label is absent. -/
def Table.colIdx (t : Table) (c : String) : Option Nat :=
  colIdxL t.cols c

/-- The error kinds of the core, one constructor per raise site:
`notFound` and `disabled` from `get_transformation`, `columnNotFound`
from `map_column` / `uppercase_column`, `unsupportedOperator` from
`filter_rows`, `keyError` from a missing config key or a missing column
in `filter_rows`, `typeError` from comparing incompatible scalar types. -/
inductive Err where
  | notFound (name : String)
  | disabled (name : String)
  | columnNotFound (column : String)
  | unsupportedOperator (op : String)
  | keyError (key : String)
  | typeError
deriving DecidableEq, Repr

/-- The string-keyed config dict, projected onto the keys the three
built-in transformations read.  An absent key is `none`; reading an
absent key with `config[k]` raises `KeyError`. -/
structure Config where
  column : Option String := none
  operator : Option String := none
  value : Option Value := none
  old_name : Option String := none
  new_name : Option String := none
deriving DecidableEq, Repr

/-- Keep the rows whose cell at index `i` satisfies the elementwise
predicate; a `none` from the predicate is a raised TypeError, aborting
the whole operation (as an elementwise pandas comparison does). -/
def filterRowsBy (i : Nat) (p : Value → Option Bool) :
    List (List Value) → Except Err (List (List Value))
  | [] => .ok []
  | row :: rest =>
    match p (row.getD i .vnull) with
    | none => .error .typeError
    | some b => do
      let rest2 ← filterRowsBy i p rest
      .ok (if b then row :: rest2 else rest2)

/-- Embedding of `TransformationRegistry._filter_rows`: reads `column`, `operator`
(defaulting to "=="), `value` from the config; keeps the rows of `df`
whose cell in `column` satisfies `cell <op> value`.  The `contains`
branch is `df[df[column].astype(str).str.contains(str(value), na=False)]`:
both sides are stringified first, so a missing cell takes part as the
string "nan" and the `na=False` argument never sees a NaN.  An
unsupported operator raises; a missing column raises KeyError (pandas
`df[column]`). -/
def filter_rows (df : Table) (config : Config) : Except Err Table :=
  match config.column with
  | none => .error (.keyError "column")
  | some column =>
    let operator := config.operator.getD "=="
    match config.value with
    | none => .error (.keyError "value")
    | some value =>
      match df.colIdx column with
      | none => .error (.keyError column)
      | some i =>
        match (if operator == "==" then
            Except.ok (fun v => some (valueEq v value))
          else if operator == "!=" then
            Except.ok (fun v => some (!valueEq v value))
          else if operator == ">" then
            Except.ok (fun v => valueLt value v)
          else if operator == "<" then
            Except.ok (fun v => valueLt v value)
          else if operator == ">=" then
            Except.ok (fun v => valueLe value v)
          else if operator == "<=" then
            Except.ok (fun v => valueLe v value)
          else if operator == "contains" then
            Except.ok (fun v => some (strContains v.toText value.toText))
          else
            Except.error (.unsupportedOperator operator) :
              Except Err (Value → Option Bool)) with
        | .error e => .error e
        | .ok pred =>
          match filterRowsBy i pred df.rows with
          | .error e => .error e
          | .ok rows2 => .ok { cols := df.cols, rows := rows2 }

/-- Embedding of `TransformationRegistry._map_column`: reads `old_name`, `new_name`;
raises ColumnNotFound when `old_name` is absent; otherwise
`df.copy().rename(columns={old_name: new_name})`, which relabels every
column labelled `old_name` to `new_name` and leaves all cells and the
column order untouched.  pandas `rename` does not merge or drop a
pre-existing `new_name` column: the result may carry duplicate labels. -/
def map_column (df : Table) (config : Config) : Except Err Table :=
  match config.old_name with
  | none => .error (.keyError "old_name")
  | some old_name =>
    match config.new_name with
    | none => .error (.keyError "new_name")
    | some new_name =>
      if df.cols.contains old_name then
        .ok { cols := df.cols.map (fun c => if c == old_name then new_name else c),
              rows := df.rows }
      else
        .error (.columnNotFound old_name)

/-- Embedding of `TransformationRegistry._uppercase_column`: reads `column`; raises
ColumnNotFound when absent; otherwise replaces the column by
`astype(str).str.upper()`, i.e. every cell, missing ones included,
becomes the uppercase of its textual form (a missing cell becomes the
string "NAN"). -/
def uppercase_column (df : Table) (config : Config) : Except Err Table :=
  match config.column with
  | none => .error (.keyError "column")
  | some column =>
    match df.colIdx column with
    | none => .error (.columnNotFound column)
    | some i =>
      .ok { cols := df.cols,
            rows := df.rows.map
              (fun row => row.set i (.vstr (strUpper (row.getD i .vnull).toText))) }

/-- Insertion into a Python dict rendered as an association list: an
existing key is updated in place (keeping its position), a new key is
appended at the end — Python dicts preserve insertion order and keep the
position of an existing key on update. -/
def dictInsert {α : Type} : List (String × α) → String → α → List (String × α)
  | [], k, v => [(k, v)]
  | (k1, v1) :: rest, k, v =>
    if k1 == k then (k, v) :: rest else (k1, v1) :: dictInsert rest k v

/-- Dict lookup: the value under the key, if present. -/
def dictGet {α : Type} : List (String × α) → String → Option α
  | [], _ => none
  | (k1, v1) :: rest, k => if k1 == k then some v1 else dictGet rest k

/-- Embedding of `TransformationRegistry`: the dict of implementations
(`_transformations`) and the dict of enabled flags
(`_enabled_transformations`), generic in the stored implementation type
so that the same registry serves the pure and the heap-level pipeline. -/
structure Registry (α : Type) where
  transformations : List (String × α)
  enabled : List (String × Bool)

/-- Method `register(name, func, enabled=True)`: stores `func` under `name` and
sets the enabled flag (defaulting to `true`); last registration wins. -/
def Registry.register {α : Type} (ρ : Registry α) (name : String) (func : α)
    (enabled : Bool := true) : Registry α :=
  { transformations := dictInsert ρ.transformations name func,
    enabled := dictInsert ρ.enabled name enabled }

/-- Method `enable(name, enabled=True)`: sets the flag when `name` is a key of
`_transformations`; otherwise silently does nothing. -/
def Registry.enable {α : Type} (ρ : Registry α) (name : String)
    (enabled : Bool := true) : Registry α :=
  if (dictGet ρ.transformations name).isSome then
    { ρ with enabled := dictInsert ρ.enabled name enabled }
  else
    ρ

/-- Method `get_transformation(name)`: raises NotFound when `name` is not a key
of `_transformations`; then raises Disabled when
`_enabled_transformations.get(name, False)` is false (a missing flag
reads as false); otherwise returns the stored implementation. -/
def Registry.get_transformation {α : Type} (ρ : Registry α) (name : String) :
    Except Err α :=
  match dictGet ρ.transformations name with
  | none => .error (.notFound name)
  | some f =>
    if (dictGet ρ.enabled name).getD false then .ok f
    else .error (.disabled name)

/-- Method `get_available_transformations()`: the names whose enabled flag is
set, in dict (insertion) order. -/
def Registry.get_available_transformations {α : Type} (ρ : Registry α) :
    List String :=
  (ρ.enabled.filter (fun p => p.2)).map Prod.fst

/-- The type of a pure transformation implementation: `(df, config)` to a
new DataFrame or an error. -/
abbrev Trans := Table → Config → Except Err Table

/-- Construction, `TransformationRegistry.__init__` /
`_register_default_transformations`: the registry starts empty and
registers the three built-ins, all enabled by default. -/
def defaultRegistry : Registry Trans :=
  (((⟨[], []⟩ : Registry Trans).register "filter_rows" filter_rows).register
      "map_column" map_column).register "uppercase_column" uppercase_column

/-- One pipeline step: `{type, config}`; reading the config key with
`.get` makes a missing config default to the empty dict. -/
structure Step where
  type : String
  config : Config := {}

/-- Resolution and application of one step: look the `type` of the step up in
the registry and apply the resolved implementation. -/
def stepApply (ρ : Registry Trans) (t : Table) (s : Step) : Except Err Table := do
  let f ← ρ.get_transformation s.type
  f t s.config

/-- The loop body of `DataTransformationPipeline.process`: thread the
working table through the steps in order; the first failure aborts. -/
def processSteps (ρ : Registry Trans) : Table → List Step → Except Err Table
  | t, [] => .ok t
  | t, s :: rest => do
    let t2 ← stepApply ρ t s
    processSteps ρ t2 rest

/-- Embedding of `DataTransformationPipeline.process(df, pipeline_config)`: start from
`df.copy()` and run the steps in order, returning the final working
table or the first error. -/
def process (ρ : Registry Trans) (df : Table) (pipeline_config : List Step) :
    Except Err Table :=
  processSteps ρ df.copy pipeline_config

/-!
Heap-level embedding: the Python object semantics.  DataFrames live in a
heap of cells; variables are references (cell indices).  `df.copy()`,
boolean-mask indexing and `rename` allocate fresh cells; the column
assignment `df_copy[column] = ...` in `_uppercase_column` writes a cell
in place.  Errors leave the heap as it was at the raise point.
-/

/-- The heap of DataFrame objects; a reference is an index into it. -/
structure Heap where
  cells : List Table
deriving DecidableEq, Repr

/-- Dereference.  (Reads of invalid references do not occur in the
modelled code paths; they default to the empty frame.) -/
def Heap.read (h : Heap) (r : Nat) : Table :=
  (h.cells.get? r).getD ⟨[], []⟩

/-- Allocate a fresh object holding `t`, returning the new heap and the
fresh reference. -/
def Heap.alloc (h : Heap) (t : Table) : Heap × Nat :=
  (⟨h.cells ++ [t]⟩, h.cells.length)

/-- Overwrite the object at `r` in place. -/
def Heap.write (h : Heap) (r : Nat) (t : Table) : Heap :=
  ⟨h.cells.set r t⟩

/-- The type of a heap-level transformation: it receives the heap and a
reference, and returns the possibly grown heap together with a reference
to the result, or an error (the heap survives the raise). -/
abbrev TransH := Heap → Nat → Config → Heap × Except Err Nat

/-- Heap-level `_filter_rows`: boolean-mask indexing `df[mask]` builds a
new DataFrame, so the result is a fresh allocation; a raise happens
before anything is allocated. -/
def filterRowsH : TransH := fun h r config =>
  match filter_rows (h.read r) config with
  | .error e => (h, .error e)
  | .ok t2 =>
    let (h1, r1) := h.alloc t2
    (h1, .ok r1)

/-- Heap-level `_map_column`: after the checks, `df.copy()` allocates a
copy and `rename` allocates the relabelled frame; the local
`df_copy` is rebound to the latter, which is returned. -/
def mapColumnH : TransH := fun h r config =>
  match map_column (h.read r) config with
  | .error e => (h, .error e)
  | .ok t2 =>
    let (h1, _) := h.alloc (h.read r)
    let (h2, r2) := h1.alloc t2
    (h2, .ok r2)

/-- Heap-level `_uppercase_column`: after the checks, `df.copy()`
allocates a copy and `df_copy[column] = df_copy[column].astype(str)
.str.upper()` overwrites that fresh copy in place; the fresh reference is
returned. -/
def uppercaseColumnH : TransH := fun h r config =>
  match uppercase_column (h.read r) config with
  | .error e => (h, .error e)
  | .ok t2 =>
    let (h1, r1) := h.alloc (h.read r)
    (h1.write r1 t2, .ok r1)

/-- The default registry holding the heap-level built-ins. -/
def defaultRegistryH : Registry TransH :=
  (((⟨[], []⟩ : Registry TransH).register "filter_rows" filterRowsH).register
      "map_column" mapColumnH).register "uppercase_column" uppercaseColumnH

/-- Heap-level pipeline loop: resolve each step and apply it to the
current working reference; the first failure aborts, leaving the heap as
the failing step left it. -/
def processStepsH (ρ : Registry TransH) :
    Heap → Nat → List Step → Heap × Except Err Nat
  | h, r, [] => (h, .ok r)
  | h, r, s :: rest =>
    match ρ.get_transformation s.type with
    | .error e => (h, .error e)
    | .ok f =>
      match f h r s.config with
      | (h2, .error e) => (h2, .error e)
      | (h2, .ok r2) => processStepsH ρ h2 r2 rest

/-- Heap-level `process`: `result_df = df.copy()` allocates the working
copy, then the steps run in order. -/
def processH (ρ : Registry TransH) (h : Heap) (r : Nat)
    (pipeline_config : List Step) : Heap × Except Err Nat :=
  let (h0, r0) := h.alloc (h.read r)
  processStepsH ρ h0 r0 pipeline_config

/-- Heap `h2` extends `h`: no pre-existing object of `h` has been mutated and
the heap has only grown.  Every heap-level operation of the core
satisfies this, which is the no-mutation guarantee seen by the caller. -/
def Heap.extendsTo (h h2 : Heap) : Prop :=
  h.cells.length ≤ h2.cells.length ∧
  ∀ i, i < h.cells.length → h2.cells[i]? = h.cells[i]?

/-- The registry states reachable from construction
(`TransformationRegistry()`, i.e. `defaultRegistry`) by any sequence of
`register` and `enable` calls. -/
inductive Reachable : Registry Trans → Prop where
  | init : Reachable defaultRegistry
  | registerStep (ρ : Registry Trans) (name : String) (f : Trans) (b : Bool) :
      Reachable ρ → Reachable (ρ.register name f b)
  | enableStep (ρ : Registry Trans) (name : String) (b : Bool) :
      Reachable ρ → Reachable (ρ.enable name b)

/-! Helper lemmas about dicts. -/

theorem dictGet_dictInsert_self {α : Type} (d : List (String × α)) (k : String) (v : α) :
    dictGet (dictInsert d k v) k = some v := by
  induction d with
  | nil => simp [dictInsert, dictGet]
  | cons p rest ih =>
    obtain ⟨k1, v1⟩ := p
    by_cases h : k1 = k
    · simp [dictInsert, dictGet, h]
    · simp [dictInsert, dictGet, h, ih]

/-- C3: for every registry and every table, `process(table, [])` succeeds
and returns a table whose column names, column order, row order and row
values are exactly those of the input: the empty pipeline is the
identity on table content. -/
theorem empty_pipeline_is_identity (ρ : Registry Trans) (t : Table) :
    process ρ t [] = .ok t := rfl

/-- C4: `get_transformation` fails with NotFound when the name was never
registered; when the name is registered it fails with Disabled when the
enabled flag (as the code reads it, a missing entry counting as false) is
false, and otherwise returns exactly the implementation registered under
the name. -/
theorem get_transformation_cases {α : Type} (ρ : Registry α) (name : String) :
    (dictGet ρ.transformations name = none →
      ρ.get_transformation name = .error (.notFound name)) ∧
    (∀ f, dictGet ρ.transformations name = some f →
      ((dictGet ρ.enabled name).getD false = false →
        ρ.get_transformation name = .error (.disabled name)) ∧
      ((dictGet ρ.enabled name).getD false = true →
        ρ.get_transformation name = .ok f)) := by
  refine ⟨fun h => ?_, fun f hf => ⟨fun hflag => ?_, fun hflag => ?_⟩⟩
  · simp [Registry.get_transformation, h]
  · simp [Registry.get_transformation, hf, hflag]
  · simp [Registry.get_transformation, hf, hflag]

/-- Witness for C4 on a concrete two-entry registry: an unregistered
name yields NotFound, a disabled name yields Disabled, an enabled name
yields its implementation. -/
theorem get_transformation_cases_witness :
    Registry.get_transformation
        (((⟨[], []⟩ : Registry Nat).register "on" 1).register "off" 2 false) "zzz" =
      .error (.notFound "zzz") ∧
    Registry.get_transformation
        (((⟨[], []⟩ : Registry Nat).register "on" 1).register "off" 2 false) "off" =
      .error (.disabled "off") ∧
    Registry.get_transformation
        (((⟨[], []⟩ : Registry Nat).register "on" 1).register "off" 2 false) "on" =
      .ok 1 :=
  ⟨(get_transformation_cases _ "zzz").1 (by decide),
   ((get_transformation_cases _ "off").2 2 (by decide)).1 (by decide),
   ((get_transformation_cases _ "on").2 1 (by decide)).2 (by decide)⟩

/-- C8: `enable` on a name that is not registered returns without error
and leaves the whole registry state — registered names, implementations
and every enabled flag — unchanged. -/
theorem enable_unknown_is_noop {α : Type} (ρ : Registry α) (name : String) (b : Bool)
    (h : dictGet ρ.transformations name = none) :
    ρ.enable name b = ρ := by
  simp [Registry.enable, h]

/-- Witness for C8: disabling the unregistered name "zzz" on a concrete
one-entry registry returns that registry unchanged. -/
theorem enable_unknown_is_noop_witness :
    dictGet ((⟨[], []⟩ : Registry Nat).register "a" 1).transformations "zzz" = none ∧
    Registry.enable ((⟨[], []⟩ : Registry Nat).register "a" 1) "zzz" false =
      (⟨[], []⟩ : Registry Nat).register "a" 1 :=
  ⟨by decide, enable_unknown_is_noop _ "zzz" false (by decide)⟩

/-- C10: re-registering an already-registered but disabled name with the
`enabled` argument left at its default sets the flag back to true, and a
subsequent `get_transformation` succeeds and returns the new
implementation. -/
theorem reregister_reenables {α : Type} (ρ : Registry α) (name : String) (f g : α)
    (hreg : dictGet ρ.transformations name = some g)
    (hdis : dictGet ρ.enabled name = some false) :
    dictGet (ρ.register name f).enabled name = some true ∧
    (ρ.register name f).get_transformation name = .ok f := by
  have h1 : dictGet (ρ.register name f).transformations name = some f :=
    dictGet_dictInsert_self ρ.transformations name f
  have h2 : dictGet (ρ.register name f).enabled name = some true :=
    dictGet_dictInsert_self ρ.enabled name true
  exact ⟨h2, by simp [Registry.get_transformation, h1, h2]⟩

/-- Witness for C10 on a concrete registry holding "a" disabled:
re-registering "a" (implementation 7) re-enables it and
`get_transformation` returns 7. -/
theorem reregister_reenables_witness :
    dictGet (((((⟨[], []⟩ : Registry Nat).register "a" 5).enable "a" false).register
        "a" 7).enabled) "a" = some true ∧
    Registry.get_transformation
        ((((⟨[], []⟩ : Registry Nat).register "a" 5).enable "a" false).register "a" 7)
        "a" = .ok 7 :=
  reregister_reenables (((⟨[], []⟩ : Registry Nat).register "a" 5).enable "a" false)
    "a" 7 5 (by decide) (by decide)

/-- Sequential composition of the pipeline loop: running a concatenation
of step lists is running the first list and, on success, the second from
the intermediate table. -/
theorem processSteps_append (ρ : Registry Trans) (l1 l2 : List Step) (t : Table) :
    processSteps ρ t (l1 ++ l2) =
      (processSteps ρ t l1).bind (fun t2 => processSteps ρ t2 l2) := by
  induction l1 generalizing t with
  | nil => rfl
  | cons s rest ih =>
    show (stepApply ρ t s).bind (fun t2 => processSteps ρ t2 (rest ++ l2)) =
      ((stepApply ρ t s).bind (fun t2 => processSteps ρ t2 rest)).bind
        (fun t2 => processSteps ρ t2 l2)
    cases stepApply ρ t s with
    | error e => rfl
    | ok t2 => exact ih t2

/-- C1: if the pipeline prefix succeeds with some intermediate table and
the next step fails — because its type does not resolve through the
registry or because the resolved transformation fails — then `process`
returns exactly that error, whatever follows; an `error` result carries
no table, so nothing of the successfully transformed prefix is ever
returned. -/
theorem pipeline_aborts_on_step_failure (ρ : Registry Trans) (t t1 : Table)
    (pre : List Step) (s : Step) (rest : List Step) (e : Err)
    (hpre : process ρ t pre = .ok t1)
    (hfail : stepApply ρ t1 s = .error e) :
    process ρ t (pre ++ s :: rest) = .error e := by
  have hpre2 : processSteps ρ t.copy pre = Except.ok t1 := hpre
  show processSteps ρ t.copy (pre ++ s :: rest) = Except.error e
  rw [processSteps_append ρ pre (s :: rest) t.copy, hpre2]
  show processSteps ρ t1 (s :: rest) = Except.error e
  show (stepApply ρ t1 s).bind (fun t2 => processSteps ρ t2 rest) = Except.error e
  rw [hfail]
  rfl

/-- Witness for C1: one valid `uppercase_column` step followed by the
unresolvable type "nope" makes the whole pipeline return NotFound, even
though the prefix alone succeeds. -/
theorem pipeline_aborts_on_step_failure_witness :
    process defaultRegistry ⟨["a"], [[Value.vint 1]]⟩
        [⟨"uppercase_column", { column := some "a" }⟩] =
      .ok ⟨["a"], [[Value.vstr "1"]]⟩ ∧
    stepApply defaultRegistry ⟨["a"], [[Value.vstr "1"]]⟩ ⟨"nope", {}⟩ =
      .error (.notFound "nope") ∧
    process defaultRegistry ⟨["a"], [[Value.vint 1]]⟩
        ([⟨"uppercase_column", { column := some "a" }⟩] ++ [⟨"nope", {}⟩]) =
      .error (.notFound "nope") :=
  ⟨rfl, rfl,
   pipeline_aborts_on_step_failure defaultRegistry ⟨["a"], [[Value.vint 1]]⟩
     ⟨["a"], [[Value.vstr "1"]]⟩ [⟨"uppercase_column", { column := some "a" }⟩]
     ⟨"nope", {}⟩ [] (Err.notFound "nope") rfl rfl⟩

/-- C5: evaluation of `filter_rows` with operator `contains` and value
"a" on a table whose single row holds a missing value in the filtered
column: the null row is KEPT, because `astype(str)` has already turned
the missing value into the string "nan" (which contains "a") before the
`na=False` guard can exclude it.  The claim — and the `na=False`
argument in the source — say the row must be excluded. -/
theorem contains_keeps_null_row :
    filter_rows ⟨["name"], [[Value.vnull]]⟩
        { column := some "name", operator := some "contains",
          value := some (Value.vstr "a") } =
      .ok ⟨["name"], [[Value.vnull]]⟩ := rfl

/-- Counterexample to C6: `uppercase_column` on a single missing value
turns it into the string "NAN"; it does not remain null/missing as the
claim states. -/
theorem uppercase_null_becomes_NAN :
    uppercase_column ⟨["x"], [[Value.vnull]]⟩ { column := some "x" } =
        .ok ⟨["x"], [[Value.vstr "NAN"]]⟩ ∧
      uppercase_column ⟨["x"], [[Value.vnull]]⟩ { column := some "x" } ≠
        .ok ⟨["x"], [[Value.vnull]]⟩ :=
  ⟨rfl, fun h => by
    have h2 : ([[Value.vstr "NAN"]] : List (List Value)) = [[Value.vnull]] :=
      congrArg (fun r => match r with | Except.ok t => t.rows | Except.error _ => []) h
    simp at h2⟩

/-- First index of a present label is within the label list. -/
theorem colIdxL_lt_length (l : List String) (c : String) (i : Nat)
    (h : colIdxL l c = some i) : i < l.length := by
  induction l generalizing i with
  | nil => simp [colIdxL] at h
  | cons a as ih =>
    simp only [colIdxL] at h
    by_cases ha : a == c
    · rw [if_pos ha] at h
      cases h
      simp
    · rw [if_neg ha] at h
      cases hj : colIdxL as c with
      | none => rw [hj] at h; simp at h
      | some j =>
        rw [hj] at h
        simp only [Option.map_some'] at h
        cases h
        have := ih j hj
        simp
        omega

/-- C6 amended: `uppercase_column` on a table containing the configured
column succeeds for every mix of value types, leaves the column labels
and the number and order of rows unchanged, leaves the cells of every
other column unchanged, and replaces EVERY cell of the configured column —
missing values included — by the uppercase of its textual
representation; a missing value therefore becomes the string "NAN"
rather than staying missing. -/
theorem uppercase_column_amended (t : Table) (c : String) (i : Nat)
    (hwf : ∀ row ∈ t.rows, row.length = t.cols.length)
    (hc : t.colIdx c = some i) :
    ∃ t2, uppercase_column t { column := some c } = .ok t2 ∧
      t2.cols = t.cols ∧
      t2.rows.length = t.rows.length ∧
    ∀ (k : Nat) (row : List Value), t.rows[k]? = some row →
        ∃ row2, t2.rows[k]? = some row2 ∧
          row2[i]? = some (Value.vstr (strUpper (row.getD i Value.vnull).toText)) ∧
          ∀ j, j ≠ i → row2[j]? = row[j]? := by
  have heq : uppercase_column t { column := some c } =
      .ok { cols := t.cols,
            rows := t.rows.map
              (fun row => row.set i (.vstr (strUpper (row.getD i .vnull).toText))) } := by
    have hunf : uppercase_column t { column := some c } =
        (match t.colIdx c with
         | none => Except.error (Err.columnNotFound c)
         | some i2 =>
           Except.ok
             ⟨t.cols,
              t.rows.map
                (fun row => row.set i2 (.vstr (strUpper (row.getD i2 .vnull).toText)))⟩) :=
      rfl
    rw [hunf, hc]
  refine ⟨_, heq, rfl, by simp, fun k row hk => ?_⟩
  have hmem : row ∈ t.rows := List.getElem?_mem hk
  have hlen : row.length = t.cols.length := hwf row hmem
  have hi : i < row.length := by
    rw [hlen]; exact colIdxL_lt_length t.cols c i hc
  refine ⟨row.set i (.vstr (strUpper (row.getD i .vnull).toText)), ?_, ?_, ?_⟩
  · simp [hk]
  · exact List.getElem?_set_self hi
  · intro j hj
    exact List.getElem?_set_ne (fun h => hj h.symm)

/-- Witness for the amended C6 on a concrete one-column table holding a
missing value and a string. -/
theorem uppercase_column_amended_witness :
    ∃ t2, uppercase_column ⟨["x"], [[Value.vnull], [Value.vstr "hi"]]⟩
        { column := some "x" } = .ok t2 ∧
      t2.cols = ["x"] ∧
      t2.rows.length = 2 ∧
      ∀ (k : Nat) (row : List Value),
        ([[Value.vnull], [Value.vstr "hi"]] : List (List Value))[k]? = some row →
        ∃ row2, t2.rows[k]? = some row2 ∧
          row2[0]? = some (Value.vstr (strUpper (row.getD 0 Value.vnull).toText)) ∧
          ∀ j, j ≠ 0 → row2[j]? = row[j]? :=
  uppercase_column_amended ⟨["x"], [[Value.vnull], [Value.vstr "hi"]]⟩ "x" 0
    (by intro row hrow; simp at hrow; rcases hrow with h | h <;> simp [h])
    (by rfl)

/-- Counterexample to C7: `map_column` renaming "a" to the already
present label "b" yields a frame with TWO columns labelled "b" and all
cell values kept — the pre-existing "b" column is not overwritten and
the result does not have exactly one column named "b". -/
theorem map_column_collision_duplicates :
    map_column ⟨["a", "b"], [[Value.vint 1, Value.vint 2]]⟩
        { old_name := some "a", new_name := some "b" } =
      .ok ⟨["b", "b"], [[Value.vint 1, Value.vint 2]]⟩ ∧
    (⟨["b", "b"], [[Value.vint 1, Value.vint 2]]⟩ : Table).cols.count "b" = 2 :=
  ⟨rfl, by decide⟩

/-- Relabelling `o` to `n` turns every occurrence of `o` into an extra
occurrence of `n`. -/
theorem count_relabel (l : List String) (o n : String) (hne : o ≠ n) :
    (l.map (fun c => if c == o then n else c)).count n = l.count o + l.count n := by
  induction l with
  | nil => rfl
  | cons a as ih =>
    simp only [List.map_cons, List.count_cons, ih]
    by_cases ha : a = o
    · have h1 : (a == o) = true := beq_iff_eq.mpr ha
      have h2 : (a == n) = false :=
        beq_eq_false_iff_ne.mpr (fun h => hne (ha.symm.trans h))
      simp [h1, h2]
      omega
    · have hb : (a == o) = false := beq_eq_false_iff_ne.mpr ha
      by_cases han : a = n
      · have h4 : (a == n) = true := beq_iff_eq.mpr han
        simp [hb, h4]
        omega
      · have h3 : (a == n) = false := beq_eq_false_iff_ne.mpr han
        simp [hb, h3]

/-- C7 amended: `map_column` with a `new_name` colliding with a distinct
existing column does NOT overwrite it: it succeeds, keeps all cell values
and the column order, relabels the `old_name` column to
`new_name`, and the result carries the pre-existing `new_name` column as
well — two columns named `new_name`, not exactly one. -/
theorem map_column_amended (t : Table) (o n : String)
    (hnd : t.cols.Nodup) (ho : o ∈ t.cols) (hn : n ∈ t.cols) (hne : o ≠ n) :
    map_column t { old_name := some o, new_name := some n } =
      .ok { cols := t.cols.map (fun c => if c == o then n else c), rows := t.rows } ∧
    (t.cols.map (fun c => if c == o then n else c)).count n = 2 := by
  constructor
  · have hco : t.cols.contains o = true := List.elem_eq_true_of_mem ho
    have hunf : map_column t { old_name := some o, new_name := some n } =
        (if t.cols.contains o then
          Except.ok { cols := t.cols.map (fun c => if c == o then n else c),
                      rows := t.rows }
        else Except.error (Err.columnNotFound o)) := rfl
    rw [hunf, if_pos hco]
  · rw [count_relabel t.cols o n hne,
        List.count_eq_one_of_mem hnd ho, List.count_eq_one_of_mem hnd hn]

/-- Witness for the amended C7 on the concrete two-column table: the
collision produces the duplicated label list ["b", "b"]. -/
theorem map_column_amended_witness :
    map_column ⟨["a", "b"], [[Value.vint 1, Value.vint 2]]⟩
        { old_name := some "a", new_name := some "b" } =
      .ok { cols := ["a", "b"].map (fun c => if c == "a" then "b" else c),
            rows := [[Value.vint 1, Value.vint 2]] } ∧
    (["a", "b"].map (fun c => if c == "a" then "b" else c)).count "b" = 2 :=
  map_column_amended ⟨["a", "b"], [[Value.vint 1, Value.vint 2]]⟩ "a" "b"
    (by decide) (by decide) (by decide) (by decide)

/-- Inserting the same key into two dicts with equal key sequences
yields dicts with equal key sequences, whatever the stored values. -/
theorem dictInsert_map_fst {α β : Type} (d1 : List (String × α)) (d2 : List (String × β))
    (k : String) (v1 : α) (v2 : β)
    (h : d1.map Prod.fst = d2.map Prod.fst) :
    (dictInsert d1 k v1).map Prod.fst = (dictInsert d2 k v2).map Prod.fst := by
  induction d1 generalizing d2 with
  | nil =>
    cases d2 with
    | nil => rfl
    | cons p r => simp at h
  | cons p r1 ih =>
    cases d2 with
    | nil => simp at h
    | cons q r2 =>
      obtain ⟨k1, a1⟩ := p
      obtain ⟨k2, a2⟩ := q
      simp only [List.map_cons, List.cons.injEq] at h
      obtain ⟨hk, hr⟩ := h
      subst hk
      by_cases hkk : k1 = k
      · simp [dictInsert, hkk, hr]
      · simp only [dictInsert, hkk, if_neg, List.map_cons, beq_iff_eq]
        simp only [List.map_cons] at *
        exact congrArg (k1 :: ·) (ih r2 hr)

/-- Inserting a key that is already present leaves the key sequence
unchanged. -/
theorem dictInsert_map_fst_of_mem {α : Type} (d : List (String × α))
    (k : String) (v : α) (h : k ∈ d.map Prod.fst) :
    (dictInsert d k v).map Prod.fst = d.map Prod.fst := by
  induction d with
  | nil => simp at h
  | cons p r ih =>
    obtain ⟨k1, a1⟩ := p
    by_cases hkk : k1 = k
    · simp [dictInsert, hkk]
    · simp only [List.map_cons, List.mem_cons] at h
      rcases h with h | h
      · exact absurd h.symm hkk
      · simp [dictInsert, hkk, ih h]

/-- A dict lookup succeeds exactly on the keys of the dict. -/
theorem dictGet_isSome_iff_mem {α : Type} (d : List (String × α)) (k : String) :
    (dictGet d k).isSome = true ↔ k ∈ d.map Prod.fst := by
  induction d with
  | nil => simp [dictGet]
  | cons p r ih =>
    obtain ⟨k1, a1⟩ := p
    by_cases hkk : k1 = k
    · simp [dictGet, hkk]
    · simp [dictGet, hkk, ih, Ne.symm hkk]

/-- C9: in every registry state reachable from construction by `register`
and `enable` calls, the key sequence of the enabled-flag dict equals the
key sequence of the implementation dict; consequently every name listed
by `get_available_transformations` is registered, and for every
registered name the flag entry exists, so the Disabled branch of
`get_transformation` can never fire merely because a flag entry is
missing. -/
theorem registry_keys_aligned (ρ : Registry Trans) (h : Reachable ρ) :
    ρ.transformations.map Prod.fst = ρ.enabled.map Prod.fst ∧
    (∀ name, name ∈ ρ.get_available_transformations →
      (dictGet ρ.transformations name).isSome = true) ∧
    (∀ name, (dictGet ρ.transformations name).isSome = true →
      (dictGet ρ.enabled name).isSome = true) := by
  have hkeys : ρ.transformations.map Prod.fst = ρ.enabled.map Prod.fst := by
    induction h with
    | init => rfl
    | registerStep ρ1 name f b _ ih =>
      exact dictInsert_map_fst ρ1.transformations ρ1.enabled name f b ih
    | enableStep ρ1 name b _ ih =>
      by_cases hmem : (dictGet ρ1.transformations name).isSome = true
      · have hname : name ∈ ρ1.enabled.map Prod.fst := by
          rw [← ih]
          exact (dictGet_isSome_iff_mem ρ1.transformations name).mp hmem
        simp only [Registry.enable, hmem, if_pos]
        rw [ih]
        exact (dictInsert_map_fst_of_mem ρ1.enabled name b hname).symm
      · simp only [Registry.enable]
        rw [if_neg (by simpa using hmem)]
        exact ih
  refine ⟨hkeys, fun name hav => ?_, fun name hreg => ?_⟩
  · rw [dictGet_isSome_iff_mem, hkeys]
    simp only [Registry.get_available_transformations] at hav
    obtain ⟨p, hp, hfst⟩ := List.mem_map.mp hav
    exact hfst ▸ List.mem_map_of_mem Prod.fst (List.mem_of_mem_filter hp)
  · rw [dictGet_isSome_iff_mem, ← hkeys]
    exact (dictGet_isSome_iff_mem ρ.transformations name).mp hreg

/-- Witness for C9 at the constructed default registry: the key
sequences of the two dicts agree, and the registered name "filter_rows"
has a flag entry. -/
theorem registry_keys_aligned_witness :
    defaultRegistry.transformations.map Prod.fst =
      defaultRegistry.enabled.map Prod.fst ∧
    (dictGet defaultRegistry.enabled "filter_rows").isSome = true :=
  ⟨(registry_keys_aligned defaultRegistry Reachable.init).1,
   (registry_keys_aligned defaultRegistry Reachable.init).2.2 "filter_rows" rfl⟩

/-! Heap-extension lemmas for the frame claim. -/

theorem extendsTo_refl (h : Heap) : h.extendsTo h :=
  ⟨Nat.le_refl _, fun _ _ => rfl⟩

theorem extendsTo_trans {h1 h2 h3 : Heap}
    (a : h1.extendsTo h2) (b : h2.extendsTo h3) : h1.extendsTo h3 :=
  ⟨Nat.le_trans a.1 b.1,
   fun i hi => (b.2 i (Nat.lt_of_lt_of_le hi a.1)).trans (a.2 i hi)⟩

/-- Allocation leaves every pre-existing cell in place. -/
theorem alloc_extendsTo (h : Heap) (t : Table) : h.extendsTo (h.alloc t).fst :=
  ⟨by simp [Heap.alloc], fun i hi => List.getElem?_append_left hi⟩

/-- Allocating and then overwriting the freshly allocated cell (the
`df.copy(); df_copy[column] = ...` pattern) leaves every pre-existing
cell in place. -/
theorem alloc_write_extendsTo (h : Heap) (t t2 : Table) :
    h.extendsTo (((h.alloc t).fst.write (h.alloc t).snd t2)) := by
  refine ⟨by simp [Heap.alloc, Heap.write], fun i hi => ?_⟩
  show ((h.cells ++ [t]).set h.cells.length t2)[i]? = h.cells[i]?
  rw [List.getElem?_set_ne (Nat.ne_of_gt hi)]
  exact List.getElem?_append_left hi

theorem filterRowsH_extendsTo (h : Heap) (r : Nat) (cfg : Config) :
    h.extendsTo (filterRowsH h r cfg).fst := by
  show h.extendsTo (match filter_rows (h.read r) cfg with
    | .error e => (h, Except.error e)
    | .ok t2 => ((h.alloc t2).fst, Except.ok (h.alloc t2).snd)).fst
  cases filter_rows (h.read r) cfg with
  | error e => exact extendsTo_refl h
  | ok t2 => exact alloc_extendsTo h t2

theorem mapColumnH_extendsTo (h : Heap) (r : Nat) (cfg : Config) :
    h.extendsTo (mapColumnH h r cfg).fst := by
  show h.extendsTo (match map_column (h.read r) cfg with
    | .error e => (h, Except.error e)
    | .ok t2 =>
      (((h.alloc (h.read r)).fst.alloc t2).fst,
       Except.ok ((h.alloc (h.read r)).fst.alloc t2).snd)).fst
  cases map_column (h.read r) cfg with
  | error e => exact extendsTo_refl h
  | ok t2 =>
    exact extendsTo_trans (alloc_extendsTo h (h.read r))
      (alloc_extendsTo (h.alloc (h.read r)).fst t2)

theorem uppercaseColumnH_extendsTo (h : Heap) (r : Nat) (cfg : Config) :
    h.extendsTo (uppercaseColumnH h r cfg).fst := by
  show h.extendsTo (match uppercase_column (h.read r) cfg with
    | .error e => (h, Except.error e)
    | .ok t2 =>
      ((h.alloc (h.read r)).fst.write (h.alloc (h.read r)).snd t2,
       Except.ok (h.alloc (h.read r)).snd)).fst
  cases uppercase_column (h.read r) cfg with
  | error e => exact extendsTo_refl h
  | ok t2 => exact alloc_write_extendsTo h (h.read r) t2

/-- A successful registry lookup returns a stored implementation. -/
theorem get_transformation_ok_dictGet {α : Type} (ρ : Registry α) (name : String)
    (f : α) (h : ρ.get_transformation name = .ok f) :
    dictGet ρ.transformations name = some f := by
  unfold Registry.get_transformation at h
  cases hg : dictGet ρ.transformations name with
  | none => rw [hg] at h; cases h
  | some g =>
    rw [hg] at h
    have h2 : (if (dictGet ρ.enabled name).getD false = true then Except.ok g
        else Except.error (Err.disabled name)) = Except.ok f := h
    by_cases hb : ((dictGet ρ.enabled name).getD false) = true
    · rw [if_pos hb] at h2
      injection h2 with h3
      rw [h3]
    · rw [if_neg hb] at h2
      cases h2

/-- The default heap registry stores exactly the three built-ins. -/
theorem defaultRegistryH_impls (name : String) (f : TransH)
    (h : defaultRegistryH.get_transformation name = .ok f) :
    f = filterRowsH ∨ f = mapColumnH ∨ f = uppercaseColumnH := by
  have hd : dictGet [("filter_rows", filterRowsH), ("map_column", mapColumnH),
      ("uppercase_column", uppercaseColumnH)] name = some f :=
    get_transformation_ok_dictGet defaultRegistryH name f h
  simp only [dictGet] at hd
  split at hd
  · cases hd; exact Or.inl rfl
  · split at hd
    · cases hd; exact Or.inr (Or.inl rfl)
    · split at hd
      · cases hd; exact Or.inr (Or.inr rfl)
      · cases hd

/-- The pipeline loop only extends the heap when every transformation
the registry can return only extends the heap. -/
theorem processStepsH_extendsTo (ρ : Registry TransH)
    (hρ : ∀ (name : String) (f : TransH), ρ.get_transformation name = .ok f →
      ∀ (h : Heap) (r : Nat) (cfg : Config), Heap.extendsTo h (f h r cfg).fst) :
    ∀ (steps : List Step) (h : Heap) (r : Nat),
      h.extendsTo (processStepsH ρ h r steps).fst := by
  intro steps
  induction steps with
  | nil => intro h r; exact extendsTo_refl h
  | cons s rest ih =>
    intro h r
    show h.extendsTo (match ρ.get_transformation s.type with
      | .error e => (h, Except.error e)
      | .ok f =>
        match f h r s.config with
        | (h2, .error e) => (h2, Except.error e)
        | (h2, .ok r2) => processStepsH ρ h2 r2 rest).fst
    cases hg : ρ.get_transformation s.type with
    | error e => exact extendsTo_refl h
    | ok f =>
      have hstep : h.extendsTo (f h r s.config).fst := hρ s.type f hg h r s.config
      show h.extendsTo (match f h r s.config with
        | (h2, .error e) => (h2, Except.error e)
        | (h2, .ok r2) => processStepsH ρ h2 r2 rest).fst
      cases hf : f h r s.config with
      | mk h2 res =>
        rw [hf] at hstep
        cases res with
        | error e => exact hstep
        | ok r2 => exact extendsTo_trans hstep (ih h2 r2)

/-- C2: `process` never mutates the table of the caller (nor any
other pre-existing object): whether the pipeline succeeds or fails, every heap
cell that existed before the call — in particular the DataFrame of the caller
at `r` — holds exactly the same table afterwards.  Each step only reads,
allocates fresh objects, or writes objects it has just allocated. -/
theorem process_never_mutates_caller (h : Heap) (r : Nat) (steps : List Step)
    (i : Nat) (hi : i < h.cells.length) :
    (processH defaultRegistryH h r steps).fst.cells[i]? = h.cells[i]? := by
  have hρ : ∀ name f, defaultRegistryH.get_transformation name = .ok f →
      ∀ h2 r2 cfg, Heap.extendsTo h2 (f h2 r2 cfg).fst := by
    intro name f hf h2 r2 cfg
    rcases defaultRegistryH_impls name f hf with he | he | he <;> subst he
    · exact filterRowsH_extendsTo h2 r2 cfg
    · exact mapColumnH_extendsTo h2 r2 cfg
    · exact uppercaseColumnH_extendsTo h2 r2 cfg
  have hext : h.extendsTo (processH defaultRegistryH h r steps).fst := by
    show h.extendsTo (processStepsH defaultRegistryH (h.alloc (h.read r)).fst
      (h.alloc (h.read r)).snd steps).fst
    exact extendsTo_trans (alloc_extendsTo h (h.read r))
      (processStepsH_extendsTo defaultRegistryH hρ steps
        (h.alloc (h.read r)).fst (h.alloc (h.read r)).snd)
  exact hext.2 i hi

/-- Witness for C2: a one-cell heap run through an `uppercase_column`
step (which writes a heap cell in place) still holds the original
caller table in cell 0 afterwards. -/
theorem process_never_mutates_caller_witness :
    (processH defaultRegistryH ⟨[⟨["a"], [[Value.vint 1]]⟩]⟩ 0
        [⟨"uppercase_column", { column := some "a" }⟩]).fst.cells[0]? =
      (⟨[⟨["a"], [[Value.vint 1]]⟩]⟩ : Heap).cells[0]? :=
  process_never_mutates_caller ⟨[⟨["a"], [[Value.vint 1]]⟩]⟩ 0
    [⟨"uppercase_column", { column := some "a" }⟩] 0 (by decide)

end Meshx
